import Mathlib

/-!
Shallow embedding of the SubtypePlasticity proximity-graph builder
(`Funcs/MakeGraph.py`) and its cache-backed dataset layer
(`Funcs/DataLoader.py`), together with theorems settling the frozen claims
about them.

Conventions of the embedding:
* A pandas row becomes a `Record`: the integer index value, the four
  bounding-box columns `XMin, XMax, YMin, YMax`, and the remaining named
  numeric columns as an association list `extra`.
* Python floats are modelled as exact rationals (`ℚ`).
* `str(id)` casts of node identifiers are omitted: they are an injective
  recoding from integers to strings and every claim is invariant under it,
  so nodes and edges are keyed by the integer id directly.
* The source computes `dist = sqrt(d2)` for `d2` a sum of two squares and
  tests `0 < dist < maxlinkingdistance`.  The embedding stores the exact
  square `d2` and uses the equivalent rational test `edgeWindow`
  (`0 < ld ∧ 0 < d2 ∧ d2 < ld ^ 2`); the lemma `edgeWindow_iff_sqrt` proves
  the equivalence with the real-square-root formulation for every `ld`.
  Likewise an edge stores `length2`, the square of the `length` attribute
  written by the source (an injective encoding of the nonnegative length).
* Exceptions (`KeyError` from a missing column, an exception escaping the
  dataset's `process` loop, `torch.load` on a missing file) are modelled
  with `Option`/`Except`.
-/

/-- One row of a sample's raw table: the index value (cell id), the four
bounding-box columns, and the remaining named numeric columns. -/
structure Record where
  id : Int
  XMin : ℚ
  XMax : ℚ
  YMin : ℚ
  YMax : ℚ
  extra : List (String × ℚ)
deriving DecidableEq

/-- Column access on a row (pandas `row[c]`): first binding of the name. -/
def colLookup : List (String × ℚ) → String → Option ℚ
  | [], _ => none
  | kv :: rest, c => if kv.1 = c then some kv.2 else colLookup rest c

/-- Column assignment on a row (pandas `df[c] = v`): overwrite the binding
in place when the column exists, append it otherwise. -/
def setCol : List (String × ℚ) → String → ℚ → List (String × ℚ)
  | [], c, v => [(c, v)]
  | kv :: rest, c, v => if kv.1 = c then (c, v) :: rest else kv :: setCol rest c v

/-- Truncation toward zero, the semantics of Python's `int()` cast applied
to the centroid floats in `addnodes`. -/
def truncInt (q : ℚ) : ℤ := q.num.tdiv q.den

/-- Attribute dictionary of a networkx node as built by `addnodes`:
`weight` (first stain column), `size` (second stain column, only when two
weight columns are configured), `pos` (the truncated centroid).  A field is
`none` when the corresponding dictionary key is absent. -/
structure NodeData where
  weight : Option ℚ
  size : Option ℚ
  pos : Option (Int × Int)
deriving DecidableEq

/-- One entry of the edge data produced by `addedges`: the two endpoint
ids and `length2`, the square of the stored `length` attribute. -/
structure Edge where
  a : Int
  b : Int
  length2 : ℚ
deriving DecidableEq

/-- Property of an edge entry: its endpoints are the unordered pair
`(x, y)`, in either orientation. -/
def matchesPair (e : Edge) (x y : Int) : Prop :=
  (e.a = x ∧ e.b = y) ∨ (e.a = y ∧ e.b = x)

instance (e : Edge) (x y : Int) : Decidable (matchesPair e x y) := by
  unfold matchesPair; infer_instance

/-- Boolean form of `matchesPair`, used inside graph insertion. -/
def samePairB (e : Edge) (x y : Int) : Bool := decide (matchesPair e x y)

namespace MakeGraph

/-- Centroid x-coordinate written by `addnodes` line 80:
`(df.XMax + df.XMin) / 2`. -/
def xCentroid (r : Record) : ℚ := (r.XMax + r.XMin) / 2

/-- Centroid y-coordinate written by `addnodes` line 81:
`(df.YMax + df.YMin) / 2`. -/
def yCentroid (r : Record) : ℚ := (r.YMax + r.YMin) / 2

/-- One row after `addnodes` lines 80-81 ran: the `XCentroid` and then the
`YCentroid` column are written into the table. -/
def centroidRow (r : Record) : Record :=
  { r with extra := setCol (setCol r.extra "XCentroid" (xCentroid r)) "YCentroid" (yCentroid r) }

/-- The state of `self.df` after `addnodes` ran (it mutates the shared
dataframe by adding the two centroid columns). -/
def addnodesDf (df : List Record) : List Record := df.map centroidRow

/-- Centroid of a row as read back from the table columns
(`df[['XCentroid','YCentroid']]` in `addnodes`, `df['XCentroid']` /
`df['YCentroid']` in `addedges`); reading a missing column is modelled
with a default that never matters because `addnodes` runs first. -/
def centroidOf (r : Record) : ℚ × ℚ :=
  ((colLookup r.extra "XCentroid").getD 0, (colLookup r.extra "YCentroid").getD 0)

/-- Mapping `Option`-valued row processing over the table: the loop bodies
of `addnodes`, where a missing stain column raises (`KeyError`), modelled
as `none` for the whole pass. -/
def optionMapList (f : α → Option β) : List α → Option (List β)
  | [] => some []
  | x :: l =>
    match f x, optionMapList f l with
    | some y, some ys => some (y :: ys)
    | _, _ => none

/-- Node derivation (`addnodes`): writes the centroid columns into the
table, then builds one node per row.  With two weight-column names each
node gets `weight`, `size` and `pos`; with one name `weight` and `pos`;
with any other number of names the `else: pass` branch returns an empty
node list.  A named stain column absent from the table raises, modelled by
`none`. -/
def addnodes (df : List Record) (nw : List String) : Option (List (Int × NodeData)) :=
  let dfc := addnodesDf df
  match nw with
  | [w1, w2] =>
    optionMapList (fun r =>
      match colLookup r.extra w1, colLookup r.extra w2 with
      | some s1, some s2 =>
        some (r.id, ⟨some s1, some s2,
          some (truncInt (centroidOf r).1, truncInt (centroidOf r).2)⟩)
      | _, _ => none) dfc
  | [w1] =>
    optionMapList (fun r =>
      match colLookup r.extra w1 with
      | some s1 =>
        some (r.id, ⟨some s1, none,
          some (truncInt (centroidOf r).1, truncInt (centroidOf r).2)⟩)
      | none => none) dfc
  | _ => some []

/-- All ordered pairs of elements of a list, in row-major order:
`itertools.product(l, repeat=2)`. -/
def orderedPairs (l : List α) : List (α × α) := l.flatMap fun a => l.map fun b => (a, b)

/-- The sequence the `addedges` loop iterates over: `zip(xpairs, ypairs)`
aligns the x-products and y-products back into ordered pairs of rows
(every ordered pair, self-pairs included). -/
def centroidpairs (df : List Record) : List (Record × Record) := orderedPairs df

/-- Squared distance computed on `addedges` line 58 from the centroid
columns of two rows: `(x2 - x1)^2 + (y2 - y1)^2` (the source then takes
`sqrt` of this value). -/
def pairDist2 (r1 r2 : Record) : ℚ :=
  ((centroidOf r2).1 - (centroidOf r1).1) ^ 2 + ((centroidOf r2).2 - (centroidOf r1).2) ^ 2

/-- Squared Euclidean distance between the floating-point centroids of two
records, computed from the bounding boxes. -/
def centroidDist2 (ra rb : Record) : ℚ :=
  (xCentroid rb - xCentroid ra) ^ 2 + (yCentroid rb - yCentroid ra) ^ 2

/-- The linking test of `addedges` line 62, `0 < sqrt d2 < ld`, expressed
on the squared distance: equivalent for every `ld` by
`edgeWindow_iff_sqrt`. -/
def edgeWindow (ld d2 : ℚ) : Prop := 0 < ld ∧ 0 < d2 ∧ d2 < ld ^ 2

instance (ld d2 : ℚ) : Decidable (edgeWindow ld d2) := by
  unfold edgeWindow; infer_instance

/-- Edge derivation (`addedges`): iterate over every ordered pair of rows,
compute the distance (line 58), skip self-pairs (line 59), and keep the
pair as an edge entry when the linking test holds (line 62). -/
def addedges (df : List Record) (ld : ℚ) : List Edge :=
  (centroidpairs df).filterMap fun p =>
    if p.1.id = p.2.id then none
    else if edgeWindow ld (pairDist2 p.1 p.2) then
      some ⟨p.1.id, p.2.id, pairDist2 p.1 p.2⟩
    else none

/-- Number of distance evaluations performed by the `addedges` loop: line
58 computes `dist` once per element of `centroidpairs`, before the
identity test of line 59, so the count is the length of that sequence. -/
def distEvals (df : List Record) : ℕ := (centroidpairs df).length

/-- The `addedges` loop (lines 54-66) instrumented with its distance
evaluations: each iteration computes the line-58 distance exactly once —
before the line-59 identity test — then skips self-pairs, keeps
qualifying pairs as edges, and skips the rest.  Returns the edge list
together with the number of distance evaluations performed; the edge
component is exactly `addedges` (`addedgesRun_eq_addedges`) and the count
is the iteration count (`addedgesRun_snd`). -/
def addedgesRun (ld : ℚ) : List (Record × Record) → List Edge × ℕ
  | [] => ([], 0)
  | p :: rest =>
    if p.1.id = p.2.id then
      ((addedgesRun ld rest).1, (addedgesRun ld rest).2 + 1)
    else if edgeWindow ld (pairDist2 p.1 p.2) then
      ((⟨p.1.id, p.2.id, pairDist2 p.1 p.2⟩ : Edge) :: (addedgesRun ld rest).1,
        (addedgesRun ld rest).2 + 1)
    else ((addedgesRun ld rest).1, (addedgesRun ld rest).2 + 1)

end MakeGraph

/-- A networkx `Graph` as used by `MakeGraph.graph`: insertion-ordered
node list keyed by id, and an undirected, duplicate-free edge list. -/
structure Graph where
  nodes : List (Int × NodeData)
  edges : List Edge
deriving DecidableEq

namespace Graph

/-- The empty graph, `nx.Graph()`. -/
def empty : Graph := ⟨[], []⟩

/-- Ids of the nodes currently in the graph. -/
def nodeIds (g : Graph) : List Int := g.nodes.map Prod.fst

/-- Merge of node attribute dictionaries (`dict.update`): keys of the new
dictionary win. -/
def mergeData (old n : NodeData) : NodeData :=
  ⟨match n.weight with | some v => some v | none => old.weight,
   match n.size with | some v => some v | none => old.size,
   match n.pos with | some v => some v | none => old.pos⟩

/-- networkx `add_node`: update the attributes of an existing node with
that id, or append a fresh node. -/
def addNode (g : Graph) (p : Int × NodeData) : Graph :=
  if g.nodes.any fun kv => decide (kv.1 = p.1) then
    ⟨g.nodes.map fun kv => if kv.1 = p.1 then (kv.1, mergeData kv.2 p.2) else kv, g.edges⟩
  else ⟨g.nodes ++ [p], g.edges⟩

/-- networkx `add_nodes_from`. -/
def addNodesFrom (g : Graph) (ns : List (Int × NodeData)) : Graph := ns.foldl addNode g

/-- networkx auto-creation of an endpoint: a node with an empty attribute
dictionary is appended when the id is not yet present. -/
def ensureNode (g : Graph) (i : Int) : Graph :=
  if g.nodes.any fun kv => decide (kv.1 = i) then g
  else ⟨g.nodes ++ [(i, ⟨none, none, none⟩)], g.edges⟩

/-- networkx `add_edge`: both endpoints are auto-created when missing; if
the unordered pair already carries an edge its attributes are overwritten,
otherwise the edge is appended. -/
def addEdge (g : Graph) (t : Edge) : Graph :=
  let g1 := (g.ensureNode t.a).ensureNode t.b
  if g1.edges.any fun e => samePairB e t.a t.b then
    ⟨g1.nodes, g1.edges.map fun e => if samePairB e t.a t.b then ⟨e.a, e.b, t.length2⟩ else e⟩
  else ⟨g1.nodes, g1.edges ++ [t]⟩

/-- networkx `add_edges_from`. -/
def addEdgesFrom (g : Graph) (es : List Edge) : Graph := es.foldl addEdge g

/-- The graph carries an edge between the unordered pair `(x, y)`. -/
def hasPair (g : Graph) (x y : Int) : Prop := ∃ e ∈ g.edges, matchesPair e x y

/-- Structural invariant: both endpoints of every edge are node ids. -/
def edgeClosed (g : Graph) : Prop :=
  ∀ e ∈ g.edges, e.a ∈ g.nodeIds ∧ e.b ∈ g.nodeIds

/-- Structural invariant: no two stored edges cover the same unordered
pair (no duplicate and no reversed copy). -/
def edgesDedup (g : Graph) : Prop :=
  g.edges.Pairwise fun e1 e2 => ¬ matchesPair e1 e2.a e2.b

end Graph

namespace MakeGraph

/-- The graph construction of `MakeGraph.graph` with `image='no'` (the
default): a fresh `nx.Graph()`, `add_nodes_from(addnodes())` — which also
rewrites `self.df` with the centroid columns — then
`add_edges_from(addedges())` on the rewritten table.  `none` models an
exception escaping the build (a missing stain column). -/
def graph (df : List Record) (nw : List String) (ld : ℚ) : Option Graph :=
  (addnodes df nw).map fun ns =>
    Graph.addEdgesFrom (Graph.addNodesFrom Graph.empty ns) (addedges (addnodesDf df) ld)

/-- Files written by `MakeGraph.graph` (lines 128-161): with `image='yes'`
and one or two weight columns a PNG is saved under `GraphImages` (the
directory is created when absent); with `image='no'` the branch is skipped
and nothing is written. -/
def imageWrites (datadir filename : String) (nwLen : ℕ) (image : Bool) : List String :=
  if image then
    if nwLen = 2 ∨ nwLen = 1 then [datadir ++ "/GraphImages/" ++ filename ++ ".png"]
    else []
  else []

end MakeGraph

/-- Edge list of an optional build result (empty when the build raised). -/
def graphEdges : Option Graph → List Edge
  | some g => g.edges
  | none => []

/-- Node-id list of an optional build result. -/
def graphNodeIds : Option Graph → List Int
  | some g => g.nodeIds
  | none => []

namespace NuclearSubtypeDataset

/-- Artifact-store write (`torch.save`): overwrite the artifact with that
key, or append it. -/
def storePut (store : List (String × Graph)) (k : String) (g : Graph) : List (String × Graph) :=
  if store.any fun kv => decide (kv.1 = k) then
    store.map fun kv => if kv.1 = k then (k, g) else kv
  else store ++ [(k, g)]

/-- Artifact-store read: first binding of the key. -/
def lookupStore : List (String × Graph) → String → Option Graph
  | [], _ => none
  | kv :: rest, k => if kv.1 = k then some kv.2 else lookupStore rest k

/-- The `process` loop of `NuclearSubtypeDataset` (`DataLoader.py` lines
81-95) with the body's outcome abstracted: `for idx, matrix_file in
enumerate(raw listing)`, run one iteration's builder-plus-save, whose
outcome is `build idx f` (`none` when it raises), storing under
`graph_idx.pt` on success.  There is no per-sample existence check and no
exception handler, so a raised exception propagates: the result is
`.error` of the first failing sample and later samples are never reached.
On success the result carries the final store and the number of completed
builder invocations.  In the program itself the body always raises — see
`processBuild` — so only the `.error` path is reachable there; keeping the
body abstract separates the loop's control flow from that defect, and the
program's actual call is `processRun`. -/
def processAux (build : ℕ → String → Option Graph) :
    ℕ → List String → List (String × Graph) → Except String (List (String × Graph) × ℕ)
  | _, [], store => .ok (store, 0)
  | idx, f :: rest, store =>
    match build idx f with
    | none => .error f
    | some g =>
      match processAux build (idx + 1) rest (storePut store ("graph_" ++ toString idx) g) with
      | .error e => .error e
      | .ok (st, n) => .ok (st, n + 1)

/-- `process()`: the loop above started at index 0 over the raw listing. -/
def process (build : ℕ → String → Option Graph) (raw : List String)
    (store : List (String × Graph)) : Except String (List (String × Graph) × ℕ) :=
  processAux build 0 raw store

/-- `len()`: the number of `.pt` artifacts currently listed in the
processed directory. -/
def len (store : List (String × Graph)) : ℕ := store.length

/-- `get(idx)`: `torch.load` of the literal path `processed/graph_idx.pt`
— the index is interpolated into the filename, no listing is consulted;
loading an absent key fails. -/
def get (store : List (String × Graph)) (idx : ℕ) : Option Graph :=
  lookupStore store ("graph_" ++ toString idx)

/-- The loop body's builder invocation as the program makes it
(`DataLoader.py` lines 83-86): `MakeGraph(root/raw, matrix_file,
['Stain 1 Nucleus OD', 'Stain 2 Cytoplasm OD'], 75).graph(torch_graph=True)`.
`MakeGraph.graph` accepts only the keyword `image`, so the call raises
`TypeError` for the unexpected keyword `torch_graph` before any graph is
built: every invocation of the body fails, for every sample. -/
def processBuild : ℕ → String → Option Graph := fun _ _ => none

/-- Number of builder invocations a run of the loop performs: each
iteration entered invokes the builder exactly once (line 83); when that
invocation raises, the invocation still happened and the loop stops
there.  Mirrors `processAux` iteration for iteration. -/
def processCount (build : ℕ → String → Option Graph) : ℕ → List String → ℕ
  | _, [] => 0
  | idx, f :: rest =>
    match build idx f with
    | none => 1
    | some _ => 1 + processCount build (idx + 1) rest

/-- The exceptions a call of `process` can raise: the builder `TypeError`
at a sample (lines 83-86), or the `TypeError` of the final `idx_id`
write (line 99-100: `json.dump` of text into a file opened in binary
mode). -/
inductive ProcErr where
  | builderTypeError : String → ProcErr
  | jsonDumpTypeError : ProcErr
deriving DecidableEq

/-- `process()` as the program actually runs it (lines 81-100): the loop
with its real body `processBuild`, then the `idx_id` write, which itself
raises (`json.dump` of a str into a file opened with mode `'wb'`); so no
call of `process` returns normally. -/
def processRun (raw : List String) (store : List (String × Graph)) : Except ProcErr Unit :=
  match processAux processBuild 0 raw store with
  | .error f => .error (.builderTypeError f)
  | .ok _ => .error .jsonDumpTypeError

end NuclearSubtypeDataset

/-! ### Demonstration data: the spec's three-node scenario (centroids
(0,0), (10,0), (100,0)). -/

def rA : Record := ⟨1, 0, 0, 0, 0, [("S1", 3), ("S2", 4)]⟩

def rB : Record := ⟨2, 10, 10, 0, 0, [("S1", 5), ("S2", 6)]⟩

def rC : Record := ⟨3, 100, 100, 0, 0, [("S1", 7), ("S2", 8)]⟩

def dfDemo : List Record := [rA, rB, rC]

/-! ### Helper lemmas about rows and columns -/

lemma colLookup_setCol_self (row : List (String × ℚ)) (c : String) (v : ℚ) :
    colLookup (setCol row c v) c = some v := by
  induction row with
  | nil => simp [setCol, colLookup]
  | cons kv rest ih =>
    by_cases h : kv.1 = c
    · simp [setCol, h, colLookup]
    · simp [setCol, h, colLookup, ih]

lemma colLookup_setCol_other (row : List (String × ℚ)) (c c' : String) (v : ℚ)
    (h : c' ≠ c) : colLookup (setCol row c v) c' = colLookup row c' := by
  have hcc : ¬ c = c' := fun hc => h hc.symm
  induction row with
  | nil => simp [setCol, colLookup, hcc]
  | cons kv rest ih =>
    by_cases hk : kv.1 = c
    · subst hk
      simp [setCol, colLookup, hcc]
    · simp [setCol, hk, colLookup, ih]

namespace MakeGraph

lemma centroidRow_id (r : Record) : (centroidRow r).id = r.id := rfl

lemma centroidOf_centroidRow (r : Record) :
    centroidOf (centroidRow r) = (xCentroid r, yCentroid r) := by
  unfold centroidOf centroidRow
  have hx : colLookup (setCol (setCol r.extra "XCentroid" (xCentroid r)) "YCentroid"
      (yCentroid r)) "XCentroid" = some (xCentroid r) := by
    rw [colLookup_setCol_other _ _ _ _ (by decide), colLookup_setCol_self]
  have hy : colLookup (setCol (setCol r.extra "XCentroid" (xCentroid r)) "YCentroid"
      (yCentroid r)) "YCentroid" = some (yCentroid r) := colLookup_setCol_self _ _ _
  simp [hx, hy]

lemma colLookup_centroidRow (r : Record) (c : String) (h1 : c ≠ "XCentroid")
    (h2 : c ≠ "YCentroid") : colLookup (centroidRow r).extra c = colLookup r.extra c := by
  unfold centroidRow
  simp only
  rw [colLookup_setCol_other _ _ _ _ h2, colLookup_setCol_other _ _ _ _ h1]

lemma pairDist2_centroidRow (ra rb : Record) :
    pairDist2 (centroidRow ra) (centroidRow rb) = centroidDist2 ra rb := by
  unfold pairDist2 centroidDist2
  rw [centroidOf_centroidRow, centroidOf_centroidRow]

lemma pairDist2_comm (r1 r2 : Record) : pairDist2 r2 r1 = pairDist2 r1 r2 := by
  unfold pairDist2; ring

lemma centroidDist2_nonneg (ra rb : Record) : 0 ≤ centroidDist2 ra rb := by
  unfold centroidDist2; positivity

lemma addnodesDf_id_map (df : List Record) :
    (addnodesDf df).map Record.id = df.map Record.id := by
  unfold addnodesDf
  rw [List.map_map]
  exact List.map_congr_left fun r _ => centroidRow_id r

/-! ### Helper lemmas about the pair enumeration -/

lemma mem_orderedPairs {l : List α} {p : α × α} :
    p ∈ orderedPairs l ↔ p.1 ∈ l ∧ p.2 ∈ l := by
  unfold orderedPairs
  simp only [List.mem_flatMap, List.mem_map]
  constructor
  · rintro ⟨a, ha, b, hb, rfl⟩; exact ⟨ha, hb⟩
  · rintro ⟨h1, h2⟩; exact ⟨p.1, h1, p.2, h2, rfl⟩

lemma length_flatMap_map (l1 l2 : List α) (f : α → α → α × α) :
    (l1.flatMap fun a => l2.map (f a)).length = l1.length * l2.length := by
  induction l1 with
  | nil => simp
  | cons x t ih =>
    rw [List.flatMap_cons, List.length_append, List.length_map, ih, List.length_cons]
    ring

lemma length_orderedPairs (l : List α) :
    (orderedPairs l).length = l.length * l.length :=
  length_flatMap_map l l fun a b => (a, b)

/-! ### Helper lemmas about `optionMapList` -/

lemma optionMapList_eq_some_map (f : α → Option β) (g : α → β) (l : List α)
    (h : ∀ a ∈ l, f a = some (g a)) : optionMapList f l = some (l.map g) := by
  induction l with
  | nil => rfl
  | cons x t ih =>
    have hx := h x (List.mem_cons_self x t)
    have ht := ih fun a ha => h a (List.mem_cons_of_mem x ha)
    simp [optionMapList, hx, ht]

lemma optionMapList_eq_none (f : α → Option β) (l : List α) (a : α)
    (ha : a ∈ l) (h : f a = none) : optionMapList f l = none := by
  induction l with
  | nil => cases ha
  | cons x t ih =>
    rcases List.mem_cons.mp ha with rfl | hat
    · simp [optionMapList, h]
    · cases hx : f x with
      | none => simp [optionMapList, hx]
      | some y => simp [optionMapList, hx, ih hat]

/-! ### Membership characterization of the raw edge list -/

lemma mem_addedges {df : List Record} {ld : ℚ} {e : Edge} :
    e ∈ addedges df ld ↔
      ∃ r1 ∈ df, ∃ r2 ∈ df, r1.id ≠ r2.id ∧ edgeWindow ld (pairDist2 r1 r2) ∧
        e = ⟨r1.id, r2.id, pairDist2 r1 r2⟩ := by
  unfold addedges centroidpairs
  simp only [List.mem_filterMap]
  constructor
  · rintro ⟨p, hp, hfp⟩
    obtain ⟨h1, h2⟩ := mem_orderedPairs.mp hp
    split_ifs at hfp with hid hw
    exact ⟨p.1, h1, p.2, h2, hid, hw, (Option.some_inj.mp hfp).symm⟩
  · rintro ⟨r1, h1, r2, h2, hid, hw, rfl⟩
    refine ⟨(r1, r2), mem_orderedPairs.mpr ⟨h1, h2⟩, ?_⟩
    simp [hid, hw]

end MakeGraph

/-! ### Helper lemmas about unordered endpoint pairs -/

lemma matchesPair_congr {e : Edge} {u v x y : Int}
    (h1 : matchesPair e u v) (h2 : (u = x ∧ v = y) ∨ (u = y ∧ v = x)) :
    matchesPair e x y := by
  unfold matchesPair at *
  omega

lemma matchesPair_both {e t : Edge} {x y : Int}
    (h1 : matchesPair e t.a t.b) (h2 : matchesPair e x y) : matchesPair t x y := by
  unfold matchesPair at *
  omega

lemma samePairB_eq_true {e : Edge} {x y : Int} :
    samePairB e x y = true ↔ matchesPair e x y := by
  simp [samePairB]

namespace Graph

lemma addNode_edges (g : Graph) (p : Int × NodeData) : (g.addNode p).edges = g.edges := by
  unfold addNode
  split <;> rfl

lemma addNode_nodeIds_mem {g : Graph} (p : Int × NodeData) {x : Int} (h : x ∈ g.nodeIds) :
    x ∈ (g.addNode p).nodeIds := by
  unfold nodeIds at h ⊢
  unfold addNode
  split
  · rw [List.map_map]
    have heq : (g.nodes.map
        (Prod.fst ∘ fun kv => if kv.1 = p.1 then (kv.1, mergeData kv.2 p.2) else kv)) =
        g.nodes.map Prod.fst := by
      refine List.map_congr_left fun kv _ => ?_
      by_cases hkv : kv.1 = p.1 <;> simp [hkv]
    rw [heq]; exact h
  · rw [List.map_append]
    exact List.mem_append_left _ h

lemma addNodesFrom_edges (g : Graph) (ns : List (Int × NodeData)) :
    (g.addNodesFrom ns).edges = g.edges := by
  induction ns generalizing g with
  | nil => rfl
  | cons n t ih => exact (ih (g.addNode n)).trans (addNode_edges g n)

lemma addNodesFrom_nodeIds_mem {g : Graph} (ns : List (Int × NodeData)) {x : Int}
    (h : x ∈ g.nodeIds) : x ∈ (g.addNodesFrom ns).nodeIds := by
  induction ns generalizing g with
  | nil => exact h
  | cons n t ih => exact ih (addNode_nodeIds_mem n h)

lemma ensureNode_edges (g : Graph) (i : Int) : (g.ensureNode i).edges = g.edges := by
  unfold ensureNode
  split <;> rfl

lemma ensureNode_nodeIds_mem {g : Graph} (i : Int) {x : Int} (h : x ∈ g.nodeIds) :
    x ∈ (g.ensureNode i).nodeIds := by
  unfold nodeIds at h ⊢
  unfold ensureNode
  split
  · exact h
  · rw [List.map_append]
    exact List.mem_append_left _ h

lemma ensureNode_self_mem (g : Graph) (i : Int) : i ∈ (g.ensureNode i).nodeIds := by
  unfold ensureNode nodeIds
  split
  · rename_i hany
    obtain ⟨kv, hkv, he⟩ := List.any_eq_true.mp hany
    exact List.mem_map.mpr ⟨kv, hkv, of_decide_eq_true he⟩
  · rw [List.map_append]
    exact List.mem_append_right _ (by simp)

lemma addEdge_edges_eq (g : Graph) (t : Edge) :
    (g.addEdge t).edges =
      if g.edges.any fun e => samePairB e t.a t.b then
        g.edges.map fun e => if samePairB e t.a t.b then ⟨e.a, e.b, t.length2⟩ else e
      else g.edges ++ [t] := by
  simp only [addEdge, ensureNode_edges]
  split <;> rfl

lemma addEdge_nodes_eq (g : Graph) (t : Edge) :
    (g.addEdge t).nodes = ((g.ensureNode t.a).ensureNode t.b).nodes := by
  simp only [addEdge, ensureNode_edges]
  split <;> rfl

lemma addEdge_nodeIds_mem {g : Graph} (t : Edge) {x : Int} (h : x ∈ g.nodeIds) :
    x ∈ (g.addEdge t).nodeIds := by
  have h1 : x ∈ ((g.ensureNode t.a).ensureNode t.b).nodeIds :=
    ensureNode_nodeIds_mem _ (ensureNode_nodeIds_mem _ h)
  unfold nodeIds at h1 ⊢
  rw [addEdge_nodes_eq]
  exact h1

lemma addEdge_endpoints_mem (g : Graph) (t : Edge) :
    t.a ∈ (g.addEdge t).nodeIds ∧ t.b ∈ (g.addEdge t).nodeIds := by
  have ha : t.a ∈ ((g.ensureNode t.a).ensureNode t.b).nodeIds :=
    ensureNode_nodeIds_mem _ (ensureNode_self_mem g t.a)
  have hb : t.b ∈ ((g.ensureNode t.a).ensureNode t.b).nodeIds :=
    ensureNode_self_mem _ t.b
  constructor <;> (unfold nodeIds at *; rw [addEdge_nodes_eq])
  · exact ha
  · exact hb

lemma update_endA (e t : Edge) :
    (if samePairB e t.a t.b then (⟨e.a, e.b, t.length2⟩ : Edge) else e).a = e.a := by
  split <;> rfl

lemma update_endB (e t : Edge) :
    (if samePairB e t.a t.b then (⟨e.a, e.b, t.length2⟩ : Edge) else e).b = e.b := by
  split <;> rfl

lemma matchesPair_update {e t : Edge} {x y : Int} :
    matchesPair (if samePairB e t.a t.b then (⟨e.a, e.b, t.length2⟩ : Edge) else e) x y ↔
      matchesPair e x y := by
  by_cases hsp : samePairB e t.a t.b <;> simp [hsp, matchesPair]

lemma hasPair_addEdge {g : Graph} {t : Edge} {x y : Int} :
    (g.addEdge t).hasPair x y ↔ g.hasPair x y ∨ matchesPair t x y := by
  unfold hasPair
  rw [addEdge_edges_eq]
  by_cases hc : g.edges.any fun e => samePairB e t.a t.b
  · rw [if_pos hc]
    constructor
    · rintro ⟨e', he', hm⟩
      obtain ⟨e, he, rfl⟩ := List.mem_map.mp he'
      exact Or.inl ⟨e, he, matchesPair_update.mp hm⟩
    · rintro (⟨e, he, hm⟩ | hm)
      · exact ⟨_, List.mem_map_of_mem _ he, matchesPair_update.mpr hm⟩
      · obtain ⟨e0, he0, hsp⟩ := List.any_eq_true.mp hc
        have hm0 : matchesPair e0 t.a t.b := samePairB_eq_true.mp hsp
        refine ⟨_, List.mem_map_of_mem _ he0, ?_⟩
        exact matchesPair_update.mpr (matchesPair_congr hm0 hm)
  · rw [if_neg hc]
    constructor
    · rintro ⟨e', he', hm⟩
      rcases List.mem_append.mp he' with h | h
      · exact Or.inl ⟨e', h, hm⟩
      · rw [List.mem_singleton] at h
        exact Or.inr (h ▸ hm)
    · rintro (⟨e, he, hm⟩ | hm)
      · exact ⟨e, List.mem_append_left _ he, hm⟩
      · exact ⟨t, List.mem_append_right _ (by simp), hm⟩

lemma hasPair_addEdgesFrom {es : List Edge} {x y : Int} :
    ∀ {g : Graph}, (g.addEdgesFrom es).hasPair x y ↔
      g.hasPair x y ∨ ∃ t ∈ es, matchesPair t x y := by
  induction es with
  | nil =>
    intro g
    simp [addEdgesFrom]
  | cons t ts ih =>
    intro g
    have hstep : g.addEdgesFrom (t :: ts) = (g.addEdge t).addEdgesFrom ts := rfl
    rw [hstep, ih, hasPair_addEdge]
    constructor
    · rintro ((h | h) | ⟨u, hu, hm⟩)
      · exact Or.inl h
      · exact Or.inr ⟨t, List.mem_cons_self t ts, h⟩
      · exact Or.inr ⟨u, List.mem_cons_of_mem t hu, hm⟩
    · rintro (h | ⟨u, hu, hm⟩)
      · exact Or.inl (Or.inl h)
      · rcases List.mem_cons.mp hu with rfl | hu
        · exact Or.inl (Or.inr hm)
        · exact Or.inr ⟨u, hu, hm⟩

lemma addEdge_length_inv {g : Graph} {t : Edge} {x y : Int} {L : ℚ}
    (hg : ∀ e ∈ g.edges, matchesPair e x y → e.length2 = L)
    (ht : matchesPair t x y → t.length2 = L) :
    ∀ e' ∈ (g.addEdge t).edges, matchesPair e' x y → e'.length2 = L := by
  intro e' he' hm
  rw [addEdge_edges_eq] at he'
  by_cases hc : g.edges.any fun e => samePairB e t.a t.b
  · rw [if_pos hc] at he'
    obtain ⟨e, he, rfl⟩ := List.mem_map.mp he'
    by_cases hsp : samePairB e t.a t.b
    · rw [if_pos hsp] at hm ⊢
      have hm0 : matchesPair e t.a t.b := samePairB_eq_true.mp hsp
      have hme : matchesPair e x y := matchesPair_update.mp (by rw [if_pos hsp]; exact hm)
      exact ht (matchesPair_both hm0 hme)
    · rw [if_neg hsp] at hm ⊢
      exact hg e he hm
  · rw [if_neg hc] at he'
    rcases List.mem_append.mp he' with h | h
    · exact hg e' h hm
    · rw [List.mem_singleton] at h
      subst h
      exact ht hm

lemma addEdgesFrom_length_inv {es : List Edge} {x y : Int} {L : ℚ} :
    ∀ {g : Graph}, (∀ e ∈ g.edges, matchesPair e x y → e.length2 = L) →
      (∀ t ∈ es, matchesPair t x y → t.length2 = L) →
      ∀ e' ∈ (g.addEdgesFrom es).edges, matchesPair e' x y → e'.length2 = L := by
  induction es with
  | nil => intro g hg _; exact hg
  | cons t ts ih =>
    intro g hg hts
    exact ih (addEdge_length_inv hg (hts t (List.mem_cons_self t ts)))
      fun u hu => hts u (List.mem_cons_of_mem t hu)

lemma edgeClosed_addNode {g : Graph} (p : Int × NodeData) (h : g.edgeClosed) :
    (g.addNode p).edgeClosed := by
  intro e he
  rw [addNode_edges] at he
  exact ⟨addNode_nodeIds_mem p (h e he).1, addNode_nodeIds_mem p (h e he).2⟩

lemma edgesDedup_addNode {g : Graph} (p : Int × NodeData) (h : g.edgesDedup) :
    (g.addNode p).edgesDedup := by
  unfold edgesDedup at h ⊢
  rw [addNode_edges]
  exact h

lemma edgeClosed_addEdge {g : Graph} (t : Edge) (h : g.edgeClosed) :
    (g.addEdge t).edgeClosed := by
  intro e' he'
  rw [addEdge_edges_eq] at he'
  by_cases hc : g.edges.any fun e => samePairB e t.a t.b
  · rw [if_pos hc] at he'
    obtain ⟨e, he, rfl⟩ := List.mem_map.mp he'
    have := h e he
    by_cases hsp : samePairB e t.a t.b
    · rw [if_pos hsp]
      exact ⟨addEdge_nodeIds_mem t this.1, addEdge_nodeIds_mem t this.2⟩
    · rw [if_neg hsp]
      exact ⟨addEdge_nodeIds_mem t this.1, addEdge_nodeIds_mem t this.2⟩
  · rw [if_neg hc] at he'
    rcases List.mem_append.mp he' with hmem | hmem
    · exact ⟨addEdge_nodeIds_mem t (h e' hmem).1, addEdge_nodeIds_mem t (h e' hmem).2⟩
    · rw [List.mem_singleton] at hmem
      subst hmem
      exact addEdge_endpoints_mem g e'

lemma edgesDedup_addEdge {g : Graph} (t : Edge) (h : g.edgesDedup) :
    (g.addEdge t).edgesDedup := by
  unfold edgesDedup at h ⊢
  rw [addEdge_edges_eq]
  by_cases hc : g.edges.any fun e => samePairB e t.a t.b
  · rw [if_pos hc]
    refine List.Pairwise.map _ ?_ h
    intro e1 e2 hne hm
    rw [update_endA, update_endB] at hm
    exact hne (matchesPair_update.mp hm)
  · rw [if_neg hc]
    rw [List.pairwise_append]
    refine ⟨h, List.pairwise_singleton _ _, ?_⟩
    intro e he u hu
    rw [List.mem_singleton] at hu
    subst hu
    intro hm
    exact hc (List.any_eq_true.mpr ⟨e, he, samePairB_eq_true.mpr hm⟩)

lemma edgeClosed_addEdgesFrom {es : List Edge} :
    ∀ {g : Graph}, g.edgeClosed → (g.addEdgesFrom es).edgeClosed := by
  induction es with
  | nil => intro g h; exact h
  | cons t ts ih => intro g h; exact ih (edgeClosed_addEdge t h)

lemma edgesDedup_addEdgesFrom {es : List Edge} :
    ∀ {g : Graph}, g.edgesDedup → (g.addEdgesFrom es).edgesDedup := by
  induction es with
  | nil => intro g h; exact h
  | cons t ts ih => intro g h; exact ih (edgesDedup_addEdge t h)

end Graph

/-! ### The square-root linking test versus its squared form -/

/-- The test of `addedges` line 62, `0 < sqrt s < ld` over the reals, is
exactly the rational window `edgeWindow ld s` used by the embedding, for
every `ld` and `s`. -/
lemma edgeWindow_iff_sqrt (ld s : ℚ) :
    MakeGraph.edgeWindow ld s ↔
      (0 < Real.sqrt (s : ℝ) ∧ Real.sqrt (s : ℝ) < (ld : ℝ)) := by
  unfold MakeGraph.edgeWindow
  constructor
  · rintro ⟨hld, hs0, hlt⟩
    have hldR : (0 : ℝ) < (ld : ℝ) := by exact_mod_cast hld
    have hs0R : (0 : ℝ) < (s : ℝ) := by exact_mod_cast hs0
    have hltR : (s : ℝ) < (ld : ℝ) ^ 2 := by exact_mod_cast hlt
    exact ⟨Real.sqrt_pos.mpr hs0R, (Real.sqrt_lt' hldR).mpr hltR⟩
  · rintro ⟨h1, h2⟩
    have hs0R : (0 : ℝ) < (s : ℝ) := Real.sqrt_pos.mp h1
    have hldR : (0 : ℝ) < (ld : ℝ) := lt_of_le_of_lt (Real.sqrt_nonneg _) h2
    have hltR : (s : ℝ) < (ld : ℝ) ^ 2 := (Real.sqrt_lt' hldR).mp h2
    refine ⟨by exact_mod_cast hldR, by exact_mod_cast hs0R, by exact_mod_cast hltR⟩

namespace MakeGraph

/-- A successful build is node insertion followed by edge insertion on the
centroided table. -/
lemma graph_eq_some {df : List Record} {nw : List String} {ld : ℚ} {g : Graph}
    (h : graph df nw ld = some g) :
    ∃ ns, addnodes df nw = some ns ∧
      g = Graph.addEdgesFrom (Graph.addNodesFrom Graph.empty ns)
        (addedges (addnodesDf df) ld) := by
  unfold graph at h
  cases hn : addnodes df nw with
  | none => rw [hn] at h; cases h
  | some ns =>
    rw [hn] at h
    exact ⟨ns, rfl, (Option.some_inj.mp h).symm⟩

/-- On a table with unique ids, the raw edge list carries an entry for the
unordered pair of two given rows exactly when the linking window holds for
their centroid distance, and every such entry stores that distance. -/
lemma addedges_pair_mem (df : List Record) (ld : ℚ) {ra rb : Record}
    (hnd : (df.map Record.id).Nodup) (ha : ra ∈ df) (hb : rb ∈ df)
    (hne : ra.id ≠ rb.id) :
    ((∃ t ∈ addedges (addnodesDf df) ld, matchesPair t ra.id rb.id) ↔
        edgeWindow ld (centroidDist2 ra rb)) ∧
      (∀ t ∈ addedges (addnodesDf df) ld, matchesPair t ra.id rb.id →
        t.length2 = centroidDist2 ra rb) := by
  have hnd' : ((addnodesDf df).map Record.id).Nodup := by
    rw [addnodesDf_id_map]; exact hnd
  have hinj := List.inj_on_of_nodup_map hnd'
  have ha' : centroidRow ra ∈ addnodesDf df := List.mem_map_of_mem _ ha
  have hb' : centroidRow rb ∈ addnodesDf df := List.mem_map_of_mem _ hb
  have hdist : pairDist2 (centroidRow ra) (centroidRow rb) = centroidDist2 ra rb :=
    pairDist2_centroidRow ra rb
  have hforall : ∀ t ∈ addedges (addnodesDf df) ld, matchesPair t ra.id rb.id →
      t.length2 = centroidDist2 ra rb ∧ edgeWindow ld (centroidDist2 ra rb) := by
    intro t ht hm
    obtain ⟨r1, h1, r2, h2, hid, hw, rfl⟩ := mem_addedges.mp ht
    rcases hm with ⟨hma, hmb⟩ | ⟨hma, hmb⟩
    · have hma2 : r1.id = ra.id := hma
      have hmb2 : r2.id = rb.id := hmb
      have e1 : r1 = centroidRow ra := hinj h1 ha' (hma2.trans (centroidRow_id ra).symm)
      have e2 : r2 = centroidRow rb := hinj h2 hb' (hmb2.trans (centroidRow_id rb).symm)
      subst e1; subst e2
      rw [hdist] at hw
      exact ⟨hdist, hw⟩
    · have hma2 : r1.id = rb.id := hma
      have hmb2 : r2.id = ra.id := hmb
      have e1 : r1 = centroidRow rb := hinj h1 hb' (hma2.trans (centroidRow_id rb).symm)
      have e2 : r2 = centroidRow ra := hinj h2 ha' (hmb2.trans (centroidRow_id ra).symm)
      subst e1; subst e2
      have hcomm : pairDist2 (centroidRow rb) (centroidRow ra) = centroidDist2 ra rb := by
        rw [pairDist2_comm]; exact hdist
      rw [hcomm] at hw
      exact ⟨hcomm, hw⟩
  refine ⟨⟨?_, ?_⟩, fun t ht hm => (hforall t ht hm).1⟩
  · rintro ⟨t, ht, hm⟩
    exact (hforall t ht hm).2
  · intro hw
    refine ⟨⟨ra.id, rb.id, centroidDist2 ra rb⟩, ?_, Or.inl ⟨rfl, rfl⟩⟩
    apply mem_addedges.mpr
    refine ⟨centroidRow ra, ha', centroidRow rb, hb', ?_, ?_, ?_⟩
    · rw [centroidRow_id, centroidRow_id]; exact hne
    · rw [hdist]; exact hw
    · rw [centroidRow_id, centroidRow_id, hdist]
end MakeGraph

/-- C1: for distinct records `ra, rb` of a sample's table, the built graph
has an undirected edge between them, storing the squared centroid distance
(the source stores its square root as `length`), exactly when the
Euclidean distance `d` between their floating-point centroids satisfies
`0 < d < max_link_distance`; in particular no edge at `d = 0` and none at
`d = max_link_distance` (strict bounds). -/
theorem edge_iff_distance_window (df : List Record) (nw : List String) (ld : ℚ)
    (ra rb : Record) (hnd : (df.map Record.id).Nodup) (ha : ra ∈ df) (hb : rb ∈ df)
    (hne : ra.id ≠ rb.id) (hok : (MakeGraph.graph df nw ld).isSome) :
    (∃ e ∈ graphEdges (MakeGraph.graph df nw ld),
        matchesPair e ra.id rb.id ∧ e.length2 = MakeGraph.centroidDist2 ra rb) ↔
      (0 < Real.sqrt ((MakeGraph.centroidDist2 ra rb : ℚ) : ℝ) ∧
        Real.sqrt ((MakeGraph.centroidDist2 ra rb : ℚ) : ℝ) < (ld : ℝ)) := by
  obtain ⟨g, hg⟩ := Option.isSome_iff_exists.mp hok
  obtain ⟨ns, hns, hge⟩ := MakeGraph.graph_eq_some hg
  have hpair := MakeGraph.addedges_pair_mem df ld hnd ha hb hne
  have hbase : (Graph.addNodesFrom Graph.empty ns).edges = [] :=
    Graph.addNodesFrom_edges Graph.empty ns
  rw [hg, ← edgeWindow_iff_sqrt ld (MakeGraph.centroidDist2 ra rb)]
  simp only [graphEdges]
  constructor
  · rintro ⟨e, he, hm, _⟩
    have : g.hasPair ra.id rb.id := ⟨e, he, hm⟩
    rw [hge] at this
    rcases Graph.hasPair_addEdgesFrom.mp this with hcontra | ⟨t, ht, hmt⟩
    · obtain ⟨e0, he0, _⟩ := hcontra
      rw [hbase] at he0
      cases he0
    · exact hpair.1.mp ⟨t, ht, hmt⟩
  · intro hw
    have hex := hpair.1.mpr hw
    have : g.hasPair ra.id rb.id := by
      rw [hge]
      exact Graph.hasPair_addEdgesFrom.mpr (Or.inr hex)
    obtain ⟨e, he, hm⟩ := this
    refine ⟨e, he, hm, ?_⟩
    have hlen : ∀ e' ∈ g.edges, matchesPair e' ra.id rb.id →
        e'.length2 = MakeGraph.centroidDist2 ra rb := by
      rw [hge]
      exact Graph.addEdgesFrom_length_inv
        (by rw [hbase]; intro e' he'; cases he') hpair.2
    exact hlen e he hm

/-- Witness for the C1 theorem at the spec's scenario: records with
centroids (0,0) and (10,0), `max_link_distance = 50`; the squared distance
is 100, and the edge exists since `0 < 10 < 50`. -/
theorem edge_iff_distance_window_instance :
    (∃ e ∈ graphEdges (MakeGraph.graph dfDemo ["S1"] 50),
        matchesPair e rA.id rB.id ∧ e.length2 = MakeGraph.centroidDist2 rA rB) ↔
      (0 < Real.sqrt ((MakeGraph.centroidDist2 rA rB : ℚ) : ℝ) ∧
        Real.sqrt ((MakeGraph.centroidDist2 rA rB : ℚ) : ℝ) < ((50 : ℚ) : ℝ)) :=
  edge_iff_distance_window dfDemo ["S1"] 50 rA rB (by decide) (by decide) (by decide)
    (by decide) (by decide)

/-- C9: every graph produced by a build satisfies the structural
invariants: both endpoint ids of every edge are ids in the node set, and
each unordered pair of nodes carries at most one edge — no pair is stored
in both orientations and no pair appears twice.  (A failed build yields no
graph and no edges, making the statement vacuous there.) -/
theorem built_graph_invariants (df : List Record) (nw : List String) (ld : ℚ) :
    (∀ e ∈ graphEdges (MakeGraph.graph df nw ld),
        e.a ∈ graphNodeIds (MakeGraph.graph df nw ld) ∧
          e.b ∈ graphNodeIds (MakeGraph.graph df nw ld)) ∧
      (graphEdges (MakeGraph.graph df nw ld)).Pairwise
        fun e1 e2 => ¬ matchesPair e1 e2.a e2.b := by
  cases hg : MakeGraph.graph df nw ld with
  | none => exact ⟨fun e he => absurd he (List.not_mem_nil e), List.Pairwise.nil⟩
  | some g =>
    obtain ⟨ns, _, hge⟩ := MakeGraph.graph_eq_some hg
    have hbase : (Graph.addNodesFrom Graph.empty ns).edges = [] :=
      Graph.addNodesFrom_edges Graph.empty ns
    have hclosed : (Graph.addNodesFrom Graph.empty ns).edgeClosed := by
      intro e he
      rw [hbase] at he
      cases he
    have hdedup : (Graph.addNodesFrom Graph.empty ns).edgesDedup := by
      unfold Graph.edgesDedup
      rw [hbase]
      exact List.Pairwise.nil
    have h1 : g.edgeClosed := hge ▸ Graph.edgeClosed_addEdgesFrom hclosed
    have h2 : g.edgesDedup := hge ▸ Graph.edgesDedup_addEdgesFrom hdedup
    exact ⟨h1, h2⟩

/-! ### Counting support for the raw edge list -/

lemma countP_le_one_of_pairwise {β : Type*} {l : List β} {p : β → Bool}
    (h : l.Pairwise fun x y => ¬(p x = true ∧ p y = true)) : l.countP p ≤ 1 := by
  induction l with
  | nil => simp
  | cons x t ih =>
    rw [List.countP_cons]
    obtain ⟨hx, ht⟩ := List.pairwise_cons.mp h
    by_cases hp : p x = true
    · have hzero : t.countP p = 0 :=
        List.countP_eq_zero.mpr fun y hy hpy => hx y hy ⟨hp, hpy⟩
      simp [hzero, hp]
    · simp only [hp, if_false, Nat.add_zero]
      exact ih ht

lemma matchesPair_shared {e1 e2 : Edge} {x y : Int}
    (h1 : matchesPair e1 x y) (h2 : matchesPair e2 x y) :
    matchesPair e1 e2.a e2.b := by
  unfold matchesPair at *
  omega

namespace MakeGraph

lemma centroidDist2_comm (ra rb : Record) : centroidDist2 rb ra = centroidDist2 ra rb := by
  unfold centroidDist2
  ring

lemma nodup_orderedPairs {l : List Record} (h : l.Nodup) : (orderedPairs l).Nodup := by
  have heq : orderedPairs l = l ×ˢ l := rfl
  rw [heq]
  exact h.product h

lemma mem_addedges_fn {ld : ℚ} {q : Record × Record} {e : Edge}
    (h : e ∈ (if q.1.id = q.2.id then none
      else if edgeWindow ld (pairDist2 q.1 q.2) then
        some (⟨q.1.id, q.2.id, pairDist2 q.1 q.2⟩ : Edge)
      else none)) :
    q.1.id ≠ q.2.id ∧ edgeWindow ld (pairDist2 q.1 q.2) ∧
      e = ⟨q.1.id, q.2.id, pairDist2 q.1 q.2⟩ := by
  split_ifs at h with h1 h2
  · exact absurd h (by simp)
  · rw [Option.mem_def] at h
    exact ⟨h1, h2, (Option.some_inj.mp h).symm⟩
  · exact absurd h (by simp)

/-- Construction of one directed entry of the raw edge list. -/
lemma addedges_directed_mem (df : List Record) (ld : ℚ) {ra rb : Record}
    (ha : ra ∈ df) (hb : rb ∈ df) (hne : ra.id ≠ rb.id)
    (hw : edgeWindow ld (centroidDist2 ra rb)) :
    (⟨ra.id, rb.id, centroidDist2 ra rb⟩ : Edge) ∈ addedges (addnodesDf df) ld := by
  apply mem_addedges.mpr
  refine ⟨centroidRow ra, List.mem_map_of_mem _ ha, centroidRow rb,
    List.mem_map_of_mem _ hb, ?_, ?_, ?_⟩
  · rw [centroidRow_id, centroidRow_id]
    exact hne
  · rw [pairDist2_centroidRow]
    exact hw
  · rw [centroidRow_id, centroidRow_id, pairDist2_centroidRow]

/-- On a table with unique ids, each directed orientation of a pair of
rows occurs exactly once in the raw edge list when its window holds. -/
lemma addedges_countP_directed (df : List Record) (ld : ℚ) {ra rb : Record}
    (hnd : (df.map Record.id).Nodup) (ha : ra ∈ df) (hb : rb ∈ df)
    (hne : ra.id ≠ rb.id) (hw : edgeWindow ld (centroidDist2 ra rb)) :
    ((addedges (addnodesDf df) ld).countP
      fun e => decide (e.a = ra.id ∧ e.b = rb.id)) = 1 := by
  have hnd' : ((addnodesDf df).map Record.id).Nodup := by
    rw [addnodesDf_id_map]; exact hnd
  have hinj := List.inj_on_of_nodup_map hnd'
  have hdfn : (addnodesDf df).Nodup := hnd'.of_map
  have hge : 0 < (addedges (addnodesDf df) ld).countP
      fun e => decide (e.a = ra.id ∧ e.b = rb.id) := by
    rw [List.countP_pos_iff]
    exact ⟨⟨ra.id, rb.id, centroidDist2 ra rb⟩,
      addedges_directed_mem df ld ha hb hne hw, by simp⟩
  have hpw : (addedges (addnodesDf df) ld).Pairwise fun x y =>
      ¬((decide (x.a = ra.id ∧ x.b = rb.id)) = true ∧
        (decide (y.a = ra.id ∧ y.b = rb.id)) = true) := by
    unfold addedges centroidpairs
    rw [List.pairwise_filterMap]
    refine (nodup_orderedPairs hdfn).imp_of_mem ?_
    intro q1 q2 hq1 hq2 hneq b hbm b' hbm'
    rintro ⟨hpb, hpb'⟩
    obtain ⟨hid1, hw1, rfl⟩ := mem_addedges_fn hbm
    obtain ⟨hid2, hw2, rfl⟩ := mem_addedges_fn hbm'
    rw [decide_eq_true_iff] at hpb hpb'
    have ha1 : q1.1.id = ra.id := hpb.1
    have hb1 : q1.2.id = rb.id := hpb.2
    have ha2 : q2.1.id = ra.id := hpb'.1
    have hb2 : q2.2.id = rb.id := hpb'.2
    have m1 := mem_orderedPairs.mp hq1
    have m2 := mem_orderedPairs.mp hq2
    have e11 : q1.1 = centroidRow ra :=
      hinj m1.1 (List.mem_map_of_mem _ ha) (ha1.trans (centroidRow_id ra).symm)
    have e12 : q1.2 = centroidRow rb :=
      hinj m1.2 (List.mem_map_of_mem _ hb) (hb1.trans (centroidRow_id rb).symm)
    have e21 : q2.1 = centroidRow ra :=
      hinj m2.1 (List.mem_map_of_mem _ ha) (ha2.trans (centroidRow_id ra).symm)
    have e22 : q2.2 = centroidRow rb :=
      hinj m2.2 (List.mem_map_of_mem _ hb) (hb2.trans (centroidRow_id rb).symm)
    exact hneq (Prod.ext_iff.mpr ⟨e11.trans e21.symm, e12.trans e22.symm⟩)
  exact Nat.le_antisymm (countP_le_one_of_pairwise hpw) hge

end MakeGraph

/-- C10: on a table with unique ids, the raw edge list returned by
`addedges` (before insertion into the graph) contains every qualifying
unordered pair of distinct records exactly twice — once as `(a,b)` and
once as `(b,a)` — both entries carrying the same length, and the reduction
to a single undirected edge per pair happens at insertion into the
`nx.Graph`, whose edge list keeps exactly one entry for the pair.
(`edgeWindow` is the source's `0 < dist < max_link_distance` test, see
`edgeWindow_iff_sqrt`.) -/
theorem addedges_orientation_pairs (df : List Record) (nw : List String) (ld : ℚ)
    (ra rb : Record) (hnd : (df.map Record.id).Nodup) (ha : ra ∈ df) (hb : rb ∈ df)
    (hne : ra.id ≠ rb.id) (hq : MakeGraph.edgeWindow ld (MakeGraph.centroidDist2 ra rb)) :
    ((MakeGraph.addedges (MakeGraph.addnodesDf df) ld).countP
        fun e => decide (e.a = ra.id ∧ e.b = rb.id)) = 1 ∧
      ((MakeGraph.addedges (MakeGraph.addnodesDf df) ld).countP
        fun e => decide (e.a = rb.id ∧ e.b = ra.id)) = 1 ∧
      (∀ e ∈ MakeGraph.addedges (MakeGraph.addnodesDf df) ld,
        matchesPair e ra.id rb.id → e.length2 = MakeGraph.centroidDist2 ra rb) ∧
      ∀ g, MakeGraph.graph df nw ld = some g →
        (g.edges.countP fun e => samePairB e ra.id rb.id) = 1 := by
  have hqswap : MakeGraph.edgeWindow ld (MakeGraph.centroidDist2 rb ra) := by
    rw [MakeGraph.centroidDist2_comm]
    exact hq
  refine ⟨MakeGraph.addedges_countP_directed df ld hnd ha hb hne hq,
    MakeGraph.addedges_countP_directed df ld hnd hb ha (Ne.symm hne) hqswap,
    (MakeGraph.addedges_pair_mem df ld hnd ha hb hne).2, ?_⟩
  intro g hg
  obtain ⟨ns, _, hge⟩ := MakeGraph.graph_eq_some hg
  have hbase : (Graph.addNodesFrom Graph.empty ns).edges = [] :=
    Graph.addNodesFrom_edges Graph.empty ns
  have hdedup : g.edgesDedup := by
    rw [hge]
    apply Graph.edgesDedup_addEdgesFrom
    unfold Graph.edgesDedup
    rw [hbase]
    exact List.Pairwise.nil
  have hpos : 0 < g.edges.countP fun e => samePairB e ra.id rb.id := by
    rw [List.countP_pos_iff]
    have : g.hasPair ra.id rb.id := by
      rw [hge]
      refine Graph.hasPair_addEdgesFrom.mpr (Or.inr ?_)
      exact ⟨⟨ra.id, rb.id, MakeGraph.centroidDist2 ra rb⟩,
        MakeGraph.addedges_directed_mem df ld ha hb hne hq, Or.inl ⟨rfl, rfl⟩⟩
    obtain ⟨e, he, hm⟩ := this
    exact ⟨e, he, samePairB_eq_true.mpr hm⟩
  have hpw : g.edges.Pairwise fun x y =>
      ¬(samePairB x ra.id rb.id = true ∧ samePairB y ra.id rb.id = true) :=
    hdedup.imp fun hr hand =>
      hr (matchesPair_shared (samePairB_eq_true.mp hand.1) (samePairB_eq_true.mp hand.2))
  exact Nat.le_antisymm (countP_le_one_of_pairwise hpw) hpos

/-- Witness for the C10 theorem at the demonstration table: the pair with
centroids (0,0) and (10,0) under `max_link_distance = 50` (squared
distance 100) appears once in each orientation, and the built graph keeps
one edge for it. -/
theorem addedges_orientation_pairs_instance :
    ((MakeGraph.addedges (MakeGraph.addnodesDf dfDemo) 50).countP
        fun e => decide (e.a = rA.id ∧ e.b = rB.id)) = 1 ∧
      ((MakeGraph.addedges (MakeGraph.addnodesDf dfDemo) 50).countP
        fun e => decide (e.a = rB.id ∧ e.b = rA.id)) = 1 ∧
      (∀ e ∈ MakeGraph.addedges (MakeGraph.addnodesDf dfDemo) 50,
        matchesPair e rA.id rB.id → e.length2 = MakeGraph.centroidDist2 rA rB) ∧
      ∀ g, MakeGraph.graph dfDemo ["S1"] 50 = some g →
        (g.edges.countP fun e => samePairB e rA.id rB.id) = 1 :=
  addedges_orientation_pairs dfDemo ["S1"] 50 rA rB (by decide) (by decide) (by decide)
    (by decide)
    (by norm_num [MakeGraph.edgeWindow, MakeGraph.centroidDist2, MakeGraph.xCentroid,
      MakeGraph.yCentroid, rA, rB])

namespace MakeGraph

lemma addedgesRun_snd (ld : ℚ) (l : List (Record × Record)) :
    (addedgesRun ld l).2 = l.length := by
  induction l with
  | nil => rfl
  | cons p rest ih =>
    unfold addedgesRun
    split_ifs <;> simp [ih]

lemma addedgesRun_fst (ld : ℚ) (l : List (Record × Record)) :
    (addedgesRun ld l).1 = l.filterMap fun p =>
      if p.1.id = p.2.id then none
      else if edgeWindow ld (pairDist2 p.1 p.2) then
        some (⟨p.1.id, p.2.id, pairDist2 p.1 p.2⟩ : Edge)
      else none := by
  induction l with
  | nil => rfl
  | cons p rest ih =>
    unfold addedgesRun
    rw [List.filterMap_cons]
    split_ifs <;> simp [ih]

lemma addedgesRun_eq_addedges (df : List Record) (ld : ℚ) :
    (addedgesRun ld (centroidpairs df)).1 = addedges df ld := by
  rw [addedgesRun_fst]
  rfl

end MakeGraph

/-- C3 counterexample: for a two-record table the edge-derivation pass
performs 4 distance evaluations (one per ordered pair, self-pairs
included) — both as the length of the iteration sequence and as the
instrumented loop's count — not n(n-1)/2 = 1 as claimed. -/
theorem distEvals_pair_counterexample :
    MakeGraph.distEvals (MakeGraph.addnodesDf [rA, rB]) = 4 ∧
      (MakeGraph.addedgesRun 50 (MakeGraph.centroidpairs (MakeGraph.addnodesDf [rA, rB]))).2 = 4 ∧
      MakeGraph.distEvals (MakeGraph.addnodesDf [rA, rB]) ≠ 2 * (2 - 1) / 2 := by
  refine ⟨rfl, ?_, by decide⟩
  rw [MakeGraph.addedgesRun_snd]
  rfl

/-- C3 (amended): for an input table of n records the edge-derivation
pass performs exactly n^2 distance evaluations, not n(n-1)/2 — the
instrumented loop `addedgesRun` evaluates the line-58 distance once per
element of `centroidpairs` (every ordered pair, self-pairs included,
before the line-59 identity test), its edge output is exactly `addedges`,
and its evaluation count is n^2. -/
theorem distEvals_eq_square (df : List Record) (ld : ℚ) :
    (MakeGraph.addedgesRun ld (MakeGraph.centroidpairs (MakeGraph.addnodesDf df))).2 =
        df.length ^ 2 ∧
      (MakeGraph.addedgesRun ld (MakeGraph.centroidpairs (MakeGraph.addnodesDf df))).1 =
        MakeGraph.addedges (MakeGraph.addnodesDf df) ld ∧
      MakeGraph.distEvals (MakeGraph.addnodesDf df) = df.length ^ 2 := by
  refine ⟨?_, MakeGraph.addedgesRun_eq_addedges (MakeGraph.addnodesDf df) ld, ?_⟩
  · rw [MakeGraph.addedgesRun_snd]
    unfold MakeGraph.centroidpairs
    rw [MakeGraph.length_orderedPairs]
    unfold MakeGraph.addnodesDf
    rw [List.length_map, pow_two]
  · unfold MakeGraph.distEvals MakeGraph.centroidpairs
    rw [MakeGraph.length_orderedPairs]
    unfold MakeGraph.addnodesDf
    rw [List.length_map, pow_two]

lemma list_map_eq_self_mem {l : List α} {f : α → α} (h : l.map f = l) :
    ∀ a ∈ l, f a = a := by
  induction l with
  | nil => intro a ha; cases ha
  | cons x t ih =>
    rw [List.map_cons] at h
    injection h with h1 h2
    intro a ha
    rcases List.mem_cons.mp ha with rfl | hat
    · exact h1
    · exact ih h2 a hat

/-- C6 counterexample: on a one-record table the builder's node pass
changes the record table it was given — it adds the two centroid
columns. -/
theorem build_mutates_table_counterexample :
    MakeGraph.addnodesDf [rA] ≠ [rA] := by decide

/-- C6 (amended): with `image='no'` (the default) a build writes no files
and creates no directories, but it is not free of side effects on its
input: the node pass mutates the record table, adding the `XCentroid` and
`YCentroid` columns, so any table that lacked them is changed. -/
theorem build_adds_centroid_columns_writes_nothing (df : List Record) (r : Record)
    (hr : r ∈ df) (hxc : colLookup r.extra "XCentroid" = none) :
    MakeGraph.addnodesDf df ≠ df ∧
      ∀ d fn n, MakeGraph.imageWrites d fn n false = [] := by
  constructor
  · intro heq
    have hrr := list_map_eq_self_mem heq r hr
    have hsome : colLookup (MakeGraph.centroidRow r).extra "XCentroid" =
        some (MakeGraph.xCentroid r) := by
      unfold MakeGraph.centroidRow
      simp only
      rw [colLookup_setCol_other _ _ _ _ (by decide), colLookup_setCol_self]
    rw [hrr, hxc] at hsome
    cases hsome
  · intro d fn n
    rfl

/-- Witness for the C6 theorem on a concrete one-record table. -/
theorem build_adds_centroid_columns_writes_nothing_instance :
    MakeGraph.addnodesDf [rB] ≠ [rB] ∧
      ∀ d fn n, MakeGraph.imageWrites d fn n false = [] :=
  build_adds_centroid_columns_writes_nothing [rB] rB (by decide) (by decide)

/-- C4 counterexample: with an empty weight-column list, and likewise with
a non-positive max_link_distance, the build returns an ordinary Graph —
no InvalidConfiguration error exists anywhere in the code. -/
theorem invalid_config_returns_graph_counterexample :
    (MakeGraph.graph [rA, rB] [] 5).isSome ∧
      (MakeGraph.graph [rA, rB] ["S1"] 0).isSome := by
  constructor <;> rfl

/-- C4 (amended): the build never raises InvalidConfiguration.  With 0 or
more than 2 weight columns the node pass silently returns an empty node
list and the build returns an ordinary graph; with a non-positive
max_link_distance the build returns a graph with no edges; only a named
weight column absent from the table makes the build fail, and that
failure is a column-lookup error (`KeyError`), not InvalidConfiguration. -/
theorem no_invalid_configuration_failure (df : List Record) (nw : List String) (ld : ℚ) :
    (nw.length = 0 ∨ 2 < nw.length →
        MakeGraph.addnodes df nw = some [] ∧ (MakeGraph.graph df nw ld).isSome) ∧
      (ld ≤ 0 → ∀ g, MakeGraph.graph df nw ld = some g → g.edges = []) ∧
      ∀ w1, nw = [w1] → w1 ≠ "XCentroid" → w1 ≠ "YCentroid" →
        (∃ r ∈ df, colLookup r.extra w1 = none) → MakeGraph.graph df nw ld = none := by
  refine ⟨?_, ?_, ?_⟩
  · intro h
    have hnodes : MakeGraph.addnodes df nw = some [] := by
      rcases nw with _ | ⟨a, _ | ⟨b, _ | ⟨c, t⟩⟩⟩
      · rfl
      · rcases h with h | h <;> simp at h
      · rcases h with h | h <;> simp at h
      · rfl
    refine ⟨hnodes, ?_⟩
    unfold MakeGraph.graph
    rw [hnodes]
    rfl
  · intro hld g hg
    obtain ⟨ns, hns, hge⟩ := MakeGraph.graph_eq_some hg
    have hes : MakeGraph.addedges (MakeGraph.addnodesDf df) ld = [] := by
      unfold MakeGraph.addedges
      rw [List.filterMap_eq_nil_iff]
      intro p hp
      split_ifs with h1 h2
      · rfl
      · exact absurd h2.1 (not_lt.mpr hld)
      · rfl
    rw [hge, hes]
    exact Graph.addNodesFrom_edges Graph.empty ns
  · rintro w1 rfl hx hy ⟨r, hr, hcol⟩
    have hnone : MakeGraph.addnodes df [w1] = none := by
      unfold MakeGraph.addnodes
      apply MakeGraph.optionMapList_eq_none _ _ (MakeGraph.centroidRow r)
        (List.mem_map_of_mem _ hr)
      rw [MakeGraph.colLookup_centroidRow r w1 hx hy, hcol]
    unfold MakeGraph.graph
    rw [hnone]
    rfl

/-- Witness for the C4 theorem: a two-record table built with no weight
columns yields an ordinary graph; with a negative max_link_distance the
graph is edge-free; with a missing stain column the build fails with the
lookup error. -/
theorem no_invalid_configuration_failure_instance :
    (MakeGraph.addnodes [rA, rB] [] = some [] ∧
        (MakeGraph.graph [rA, rB] [] 5).isSome) ∧
      (∀ g, MakeGraph.graph [rA, rB] ["S1"] (-1) = some g → g.edges = []) ∧
      MakeGraph.graph [rA, rB] ["Missing"] 5 = none :=
  ⟨(no_invalid_configuration_failure [rA, rB] [] 5).1 (Or.inl rfl),
    (no_invalid_configuration_failure [rA, rB] ["S1"] (-1)).2.1 (by norm_num),
    (no_invalid_configuration_failure [rA, rB] ["Missing"] 5).2.2 "Missing" rfl
      (by decide) (by decide) ⟨rA, by decide, by decide⟩⟩

namespace MakeGraph

lemma optionMapList_map_eq_some (f : α → Option β) (m : γ → α) (g : γ → β)
    (l : List γ) (h : ∀ a ∈ l, f (m a) = some (g a)) :
    optionMapList f (l.map m) = some (l.map g) := by
  induction l with
  | nil => rfl
  | cons x t ih =>
    rw [List.map_cons, List.map_cons]
    have hx := h x (List.mem_cons_self x t)
    have ht := ih fun a ha => h a (List.mem_cons_of_mem x ha)
    simp [optionMapList, hx, ht]

end MakeGraph

/-- C5: for every record, the derived node stores as position the
centroid pair truncated toward zero to integers (Python's `int()` cast,
not rounding), as `weight` the record's value in the first weight column,
and a `size` (secondary weight) exactly when two weight columns are
configured — with one column every node lacks it. -/
theorem node_position_and_weights (df : List Record) (w1 w2 : String)
    (hx1 : w1 ≠ "XCentroid") (hy1 : w1 ≠ "YCentroid")
    (hx2 : w2 ≠ "XCentroid") (hy2 : w2 ≠ "YCentroid")
    (hc1 : ∀ r ∈ df, (colLookup r.extra w1).isSome)
    (hc2 : ∀ r ∈ df, (colLookup r.extra w2).isSome) :
    MakeGraph.addnodes df [w1, w2] = some (df.map fun r =>
        (r.id, ⟨colLookup r.extra w1, colLookup r.extra w2,
          some (truncInt (MakeGraph.xCentroid r), truncInt (MakeGraph.yCentroid r))⟩)) ∧
      MakeGraph.addnodes df [w1] = some (df.map fun r =>
        (r.id, ⟨colLookup r.extra w1, none,
          some (truncInt (MakeGraph.xCentroid r), truncInt (MakeGraph.yCentroid r))⟩)) := by
  constructor
  · unfold MakeGraph.addnodes MakeGraph.addnodesDf
    apply MakeGraph.optionMapList_map_eq_some
    intro r hr
    obtain ⟨s1, hs1⟩ := Option.isSome_iff_exists.mp (hc1 r hr)
    obtain ⟨s2, hs2⟩ := Option.isSome_iff_exists.mp (hc2 r hr)
    have l1 : colLookup (MakeGraph.centroidRow r).extra w1 = some s1 := by
      rw [MakeGraph.colLookup_centroidRow r w1 hx1 hy1]
      exact hs1
    have l2 : colLookup (MakeGraph.centroidRow r).extra w2 = some s2 := by
      rw [MakeGraph.colLookup_centroidRow r w2 hx2 hy2]
      exact hs2
    simp only [l1, l2, MakeGraph.centroidOf_centroidRow, MakeGraph.centroidRow_id, hs1, hs2]
  · unfold MakeGraph.addnodes MakeGraph.addnodesDf
    apply MakeGraph.optionMapList_map_eq_some
    intro r hr
    obtain ⟨s1, hs1⟩ := Option.isSome_iff_exists.mp (hc1 r hr)
    have l1 : colLookup (MakeGraph.centroidRow r).extra w1 = some s1 := by
      rw [MakeGraph.colLookup_centroidRow r w1 hx1 hy1]
      exact hs1
    simp only [l1, MakeGraph.centroidOf_centroidRow, MakeGraph.centroidRow_id, hs1]

/-- Witness for the C5 theorem on the demonstration table with its two
stain columns. -/
theorem node_position_and_weights_instance :
    MakeGraph.addnodes dfDemo ["S1", "S2"] = some (dfDemo.map fun r =>
        (r.id, ⟨colLookup r.extra "S1", colLookup r.extra "S2",
          some (truncInt (MakeGraph.xCentroid r), truncInt (MakeGraph.yCentroid r))⟩)) ∧
      MakeGraph.addnodes dfDemo ["S1"] = some (dfDemo.map fun r =>
        (r.id, ⟨colLookup r.extra "S1", none,
          some (truncInt (MakeGraph.xCentroid r), truncInt (MakeGraph.yCentroid r))⟩)) :=
  node_position_and_weights dfDemo "S1" "S2" (by decide) (by decide) (by decide)
    (by decide) (by decide) (by decide)

/-- C2 counterexample: over 5 raw samples of which 2 already have cached
artifacts the program does not perform 3 builder invocations: the first
and only invocation raises `TypeError` (the call passes
`torch_graph=True` to a builder that accepts only `image`) and the call
aborts at sample `s0` — one invocation, nothing materialized, whatever
the cache holds. -/
theorem process_typeerror_counterexample :
    NuclearSubtypeDataset.processRun ["s0", "s1", "s2", "s3", "s4"]
        [("graph_0", Graph.empty), ("graph_1", Graph.empty)] =
      .error (NuclearSubtypeDataset.ProcErr.builderTypeError "s0") ∧
      NuclearSubtypeDataset.processCount NuclearSubtypeDataset.processBuild 0
        ["s0", "s1", "s2", "s3", "s4"] = 1 ∧
      (1 : ℕ) ≠ 3 :=
  ⟨rfl, rfl, by decide⟩

/-- C2 (amended): materialization is neither incremental nor idempotent
in effect: `process` consults no cache, and its builder call passes the
unsupported keyword `torch_graph=True`, so on every nonempty raw listing
the call performs exactly one builder invocation — the first sample's,
which raises `TypeError` — and aborts there with that exception, for any
store contents; a repeated call does exactly the same and no artifact is
ever materialized.  (The loop itself has no per-sample existence check,
so even a working body would be invoked once per raw sample, never
gated by the cache: see `processAux`.) -/
theorem process_single_failing_invocation (f : String) (rest : List String)
    (store : List (String × Graph)) :
    NuclearSubtypeDataset.processRun (f :: rest) store =
        .error (NuclearSubtypeDataset.ProcErr.builderTypeError f) ∧
      NuclearSubtypeDataset.processCount NuclearSubtypeDataset.processBuild 0
        (f :: rest) = 1 :=
  ⟨rfl, rfl⟩

/-- C7 counterexample: a store whose only artifact is keyed `graph_1`:
`len()` is 1, yet `get 1` succeeds although 1 ≥ len(), and `get 0` fails
although 0 < len() — the index is never resolved against the listing. -/
theorem get_literal_key_counterexample :
    NuclearSubtypeDataset.len [("graph_1", Graph.empty)] = 1 ∧
      NuclearSubtypeDataset.get [("graph_1", Graph.empty)] 1 = some Graph.empty ∧
      NuclearSubtypeDataset.get [("graph_1", Graph.empty)] 0 = none := by
  refine ⟨rfl, ?_, ?_⟩ <;> rfl

lemma lookupStore_isSome_iff (store : List (String × Graph)) (k : String) :
    (NuclearSubtypeDataset.lookupStore store k).isSome ↔ k ∈ store.map Prod.fst := by
  induction store with
  | nil => simp [NuclearSubtypeDataset.lookupStore]
  | cons kv rest ih =>
    by_cases h : kv.1 = k
    · simp [NuclearSubtypeDataset.lookupStore, h]
    · have h2 : ¬ k = kv.1 := fun hk => h hk.symm
      simp [NuclearSubtypeDataset.lookupStore, h, h2, ih]

/-- C7 (amended): `get(i)` loads the artifact stored under the literal key
`graph_i` and succeeds exactly when that key is present in the store;
`len()` plays no role in the resolution, so `get` can succeed for
i ≥ len() and fail for i < len().  It is a pure read: the store is not
modified. -/
theorem get_is_literal_key_lookup (store : List (String × Graph)) (idx : ℕ) :
    (NuclearSubtypeDataset.get store idx).isSome ↔
      ("graph_" ++ toString idx) ∈ store.map Prod.fst :=
  lookupStore_isSome_iff store ("graph_" ++ toString idx)

/-- C8 counterexample: two samples where the first build fails — the call
aborts with that sample's error, the second sample is never processed and
no list of failed sample ids is returned. -/
theorem process_abort_counterexample :
    NuclearSubtypeDataset.process
        (fun _ s => if s = "a" then none else some Graph.empty) ["a", "b"] [] =
      .error "a" := by
  rfl

/-- C8 (amended): failures are not isolated per sample: `process` has no
exception handler, so the first builder or store failure aborts the
entire call — the result is the error of the first failing sample, the
samples after it are never processed, and no list of failed sample ids is
returned. -/
theorem process_aborts_on_first_failure (build : ℕ → String → Option Graph)
    (pre rest : List String) (a : String) (store : List (String × Graph)) (idx : ℕ)
    (hpre : ∀ j (hj : j < pre.length), (build (idx + j) (pre.get ⟨j, hj⟩)).isSome)
    (hfail : build (idx + pre.length) a = none) :
    NuclearSubtypeDataset.processAux build idx (pre ++ a :: rest) store = .error a := by
  induction pre generalizing idx store with
  | nil =>
    have h0 : build idx a = none := by simpa using hfail
    simp only [List.nil_append, NuclearSubtypeDataset.processAux, h0]
  | cons p pt ih =>
    have h0 : (build idx p).isSome := by
      have h := hpre 0 (by simp)
      simpa using h
    obtain ⟨g, hg⟩ := Option.isSome_iff_exists.mp h0
    have hpre' : ∀ j (hj : j < pt.length), (build (idx + 1 + j) (pt.get ⟨j, hj⟩)).isSome := by
      intro j hj
      have h := hpre (j + 1) (by simpa using Nat.succ_lt_succ hj)
      have harith : idx + (j + 1) = idx + 1 + j := by omega
      rw [harith] at h
      simpa using h
    have hfail' : build (idx + 1 + pt.length) a = none := by
      have harith : idx + (p :: pt).length = idx + 1 + pt.length := by simp; omega
      rw [harith] at hfail
      exact hfail
    have hrec := ih (NuclearSubtypeDataset.storePut store ("graph_" ++ toString idx) g)
      (idx + 1) hpre' hfail'
    simp only [List.cons_append, NuclearSubtypeDataset.processAux, hg, List.append_eq, hrec]

/-- Witness for the C8 theorem: three samples where the second build
fails; the call stops there with that sample's error. -/
theorem process_aborts_on_first_failure_instance :
    NuclearSubtypeDataset.processAux
        (fun _ s => if s = "b" then none else some Graph.empty) 0
        (["a"] ++ "b" :: ["c"]) [] = .error "b" :=
  process_aborts_on_first_failure (fun _ s => if s = "b" then none else some Graph.empty)
    ["a"] ["c"] "b" [] 0
    (fun j hj => by
      have hj1 : j < 1 := by simpa using hj
      have hj0 : j = 0 := by omega
      subst hj0
      rfl)
    (by rfl)
